import Mathlib

/-!
Verification of the frtrss field-level authorization engine.

This development embeds the rule data model, the matching algorithm
(subject, action, object, field pattern, condition evaluation), the
allow/deny combination policy of `Permissions.check`, and the DTO
codec (`toDTO`, `fromDTO`, `validateDTO` and the zod schemas) of the
frtrss library, and proves or refutes the specified properties of
those functions.

JavaScript semantics are modelled as follows: runtime values are the
inductive `Value`; the absent value (`undefined`) is `Option.none` at
the points where the engine can observe it; operations that can raise
at runtime return `Except JsErr`.
-/

namespace Frtrss

/-- A JavaScript runtime value as the engine sees it: rule subjects,
condition values and request data payloads are plain structured data
(`null`, booleans, numbers, strings, arrays, key/value objects).
The absent value `undefined` is represented as `Option.none` where it
can occur. -/
inductive Value where
  | vNull : Value
  | vBool (b : Bool) : Value
  | vNum (n : Int) : Value
  | vStr (s : String) : Value
  | vArr (elems : List Value) : Value
  | vObj (fields : List (String × Value)) : Value

/-- Runtime error classes observable from the library:
`typeError` for a property read on `null`/`undefined`,
`genericError` for a plain `Error` (as thrown by `validateDTO`),
`validationError` for `PermissionValidationError`. -/
inductive JsErr where
  | typeError : JsErr
  | genericError : JsErr
  | validationError : JsErr
deriving DecidableEq

/-- First-match lookup of an own property in an object's entry list
(JavaScript objects have unique keys, so first-match is exact). -/
def objGet : List (String × Value) → String → Option Value
  | [], _ => none
  | (k', v) :: fs, k => if k' == k then some v else objGet fs k

/-- Helper for `splitDot`: accumulate the current segment (reversed)
while walking the character list. -/
def splitDotAux : List Char → List Char → List String
  | [], acc => [String.mk acc.reverse]
  | c :: cs, acc =>
    if c = '.' then String.mk acc.reverse :: splitDotAux cs []
    else splitDotAux cs (c :: acc)

/-- JavaScript `s.split(".")`: the dot-separated segments of `s`; the
empty string yields one empty segment, and consecutive dots yield
empty segments, exactly as in JavaScript. -/
def splitDot (s : String) : List String :=
  splitDotAux s.toList []

/-- The numeric value of a decimal digit character. -/
def digitVal (c : Char) : Option Nat :=
  if c = '0' then some 0 else if c = '1' then some 1
  else if c = '2' then some 2 else if c = '3' then some 3
  else if c = '4' then some 4 else if c = '5' then some 5
  else if c = '6' then some 6 else if c = '7' then some 7
  else if c = '8' then some 8 else if c = '9' then some 9
  else none

/-- Helper for `parseDecimal`. -/
def parseDecimalAux : List Char → Nat → Option Nat
  | [], acc => some acc
  | c :: cs, acc =>
    match digitVal c with
    | some d => parseDecimalAux cs (acc * 10 + d)
    | none => none

/-- The natural number denoted by a non-empty all-digit string. -/
def parseDecimal (s : String) : Option Nat :=
  match s.toList with
  | [] => none
  | cs => parseDecimalAux cs 0

/-- Array property read `xs[k]` for a string key `k`: the key
`"length"` reads the array's length as a number, the canonical decimal
spelling of an index reads that element, and every other key reads as
absent. -/
def arrGet (xs : List Value) (k : String) : Option Value :=
  if k == "length" then some (.vNum xs.length)
  else
    match parseDecimal k with
    | some i => if toString i == k then xs.get? i else none
    | none => none

/-- String property read `s[k]`: the key `"length"` reads the string's
length as a number, the canonical decimal spelling of an index below
the length reads that character as a one-character string, and every
other key reads as absent. -/
def strGet (s : String) (k : String) : Option Value :=
  if k == "length" then some (.vNum s.length)
  else
    match parseDecimal k with
    | some i =>
      if toString i == k then
        match s.toList.get? i with
        | some c => some (.vStr (String.singleton c))
        | none => none
      else none
    | none => none

/-- Property read `v[k]` as the engine performs it on data values:
reading a property of `null` raises a TypeError; objects expose their
own entries; arrays expose their elements and length; strings expose
their characters and length; number and boolean receivers read as
absent. -/
def jsGet : Value → String → Except JsErr (Option Value)
  | .vNull, _ => .error .typeError
  | .vObj fs, k => .ok (objGet fs k)
  | .vArr xs, k => .ok (arrGet xs k)
  | .vStr s, k => .ok (strGet s k)
  | .vNum _, _ => .ok none
  | .vBool _, _ => .ok none

/-- Total property read used where the engine reads request-subject
attributes (`requestSubject[key]`); same semantics as `jsGet` on the
non-null receivers, and request subjects are structured values in
every documented use. -/
def propGet : Value → String → Option Value
  | .vObj fs, k => objGet fs k
  | .vArr xs, k => arrGet xs k
  | .vStr s, k => strGet s k
  | _, _ => none

/-- `Object.entries` on the values that reach it: objects list their
own entries in insertion order, arrays and strings their indexed
elements/characters, other primitives have no enumerable entries. -/
def jsEntries : Value → List (String × Value)
  | .vObj fs => fs
  | .vArr xs => xs.enum.map (fun p => (toString p.1, p.2))
  | .vStr s => s.toList.enum.map (fun p => (toString p.1, .vStr (String.singleton p.2)))
  | _ => []

/-- JavaScript strict equality `===` on the comparisons the engine
performs: primitives compare by value; composite values originating
from the rule set and from the request are distinct references, hence
strictly unequal. -/
def strictEq : Value → Value → Bool
  | .vNull, .vNull => true
  | .vBool a, .vBool b => a == b
  | .vNum a, .vNum b => a == b
  | .vStr a, .vStr b => a == b
  | _, _ => false

/-- Strict equality where either side may be the absent value. -/
def strictEqU : Option Value → Option Value → Bool
  | none, none => true
  | some a, some b => strictEq a b
  | _, _ => false

/-- JavaScript `<` on the operand shapes the engine meaningfully
compares: numeric on numbers, lexicographic on strings; every other
shape (in particular an absent operand, whose numeric coercion is NaN)
compares false. -/
def jsLtB : Option Value → Option Value → Bool
  | some (.vNum a), some (.vNum b) => decide (a < b)
  | some (.vStr a), some (.vStr b) => decide (a < b)
  | _, _ => false

/-- JavaScript `<=` under the same conventions as `jsLtB`. -/
def jsLeB : Option Value → Option Value → Bool
  | some (.vNum a), some (.vNum b) => decide (a ≤ b)
  | some (.vStr a), some (.vStr b) => decide (a ≤ b)
  | _, _ => false

/-- `Array.isArray`. -/
def isArray : Value → Bool
  | .vArr _ => true
  | _ => false

/-- First element of an array value (`current[0]`), absent when empty. -/
def firstElem : Value → Option Value
  | .vArr xs => xs.head?
  | _ => none

/-- `typeof v === "object"` (true for objects, arrays and `null`). -/
def isObjectTypeof : Value → Bool
  | .vObj _ => true
  | .vArr _ => true
  | .vNull => true
  | _ => false

/-- `v === null`. -/
def isNullV : Value → Bool
  | .vNull => true
  | _ => false

/-- `Array.every` with a possibly-raising predicate, with JavaScript's
left-to-right short-circuit on the first false element. -/
def everyM (f : α → Except JsErr Bool) : List α → Except JsErr Bool
  | [] => .ok true
  | x :: xs => do
    let b ← f x
    if b then everyM f xs else .ok false

/-- `Array.some` with a possibly-raising predicate, with JavaScript's
left-to-right short-circuit on the first true element. -/
def someM (f : α → Except JsErr Bool) : List α → Except JsErr Bool
  | [] => .ok false
  | x :: xs => do
    let b ← f x
    if b then .ok true else someM f xs

/-- One step of `Permissions.getFieldValue`'s reduce callback
(src/permissions.ts): an already-absent accumulator stays absent; a
`*` segment on an array selects element 0; every other combination is
an ordinary property read. -/
def getStep (cur : Option Value) (part : String) : Except JsErr (Option Value) :=
  match cur with
  | none => .ok none
  | some v =>
    if part == "*" && isArray v then .ok (firstElem v)
    else jsGet v part

/-- `Permissions.getFieldValue` (src/permissions.ts): split the path on
`.` and walk the data value with `getStep`. -/
def getFieldValue (obj : Value) (path : String) : Except JsErr (Option Value) :=
  (splitDot path).foldlM getStep (some obj)

/-- A rule condition; `operator` is carried as a string exactly as the
DTO layer delivers it (the evaluator's `switch` has a default case for
unrecognized operators). -/
structure Condition where
  field : String
  operator : String
  value : Value

/-- The element test inside the `in`/`nin` branches of
`Permissions.evaluateCondition` (src/permissions.ts): an element that
is a non-null object has each of its own entries compared against the
condition value's corresponding property; any other element is
compared by strict equality. -/
def itemProbe (cv : Value) (item : Value) : Except JsErr Bool :=
  if isObjectTypeof item && !(isNullV item) then
    everyM (fun kv => do
      let r ← jsGet cv kv.1
      pure (strictEqU r (some kv.2))) (jsEntries item)
  else
    .ok (strictEq item cv)

/-- `Permissions.evaluateCondition` (src/permissions.ts): resolve the
condition's field path against the data and dispatch on the operator;
the `switch` default returns false. -/
def evaluateCondition (c : Condition) (data : Value) : Except JsErr Bool := do
  let value ← getFieldValue data c.field
  if c.operator == "eq" then pure (strictEqU value (some c.value))
  else if c.operator == "ne" then pure (!(strictEqU value (some c.value)))
  else if c.operator == "gt" then pure (jsLtB (some c.value) value)
  else if c.operator == "gte" then pure (jsLeB (some c.value) value)
  else if c.operator == "lt" then pure (jsLtB value (some c.value))
  else if c.operator == "lte" then pure (jsLeB value (some c.value))
  else if c.operator == "in" then
    match value with
    | some (.vArr xs) => someM (itemProbe c.value) xs
    | _ => pure false
  else if c.operator == "nin" then
    match value with
    | some (.vArr xs) => do
      let b ← someM (itemProbe c.value) xs
      pure (!b)
    | _ => pure false
  else if c.operator == "size" then
    pure (match value with
          | some (.vArr xs) => strictEq (.vNum xs.length) c.value
          | _ => false)
  else pure false

/-- `Permissions.matchesSubject` (src/permissions.ts): every entry of
the rule's subject pattern must be strictly equal to the request
subject's value at that key. -/
def matchesSubject (permissionSubject requestSubject : Value) : Bool :=
  (jsEntries permissionSubject).all
    (fun kv => strictEqU (propGet requestSubject kv.1) (some kv.2))

/-- The per-pattern test inside `Permissions.matchesField`
(src/permissions.ts): `*` matches anything; otherwise exact equality,
or segment-by-segment comparison with `*` segments matching any single
segment, requiring equal segment counts. -/
def matchesFieldOne (pattern requestField : String) : Bool :=
  if pattern == "*" then true
  else if pattern == requestField then true
  else
    let fieldParts := splitDot pattern
    let requestParts := splitDot requestField
    if fieldParts.length != requestParts.length then false
    else (fieldParts.zip requestParts).all (fun pr => pr.1 == "*" || pr.1 == pr.2)

/-- `Permissions.matchesField` (src/permissions.ts): some pattern in
the rule's field list matches the requested field. -/
def matchesField (permissionFields : List String) (requestField : String) : Bool :=
  permissionFields.any (fun f => matchesFieldOne f requestField)

/-- A permission rule as stored by the engine; `type` is `"allow"` or
`"deny"` in every well-typed rule set (the TypeScript union type), but
is carried as a string because the unvalidated DTO path can deliver
arbitrary strings. -/
structure Permission where
  type : String
  subject : Value
  action : String
  object : String
  fields : List String
  conditions : List Condition

/-- A check request: subject, action, object, requested field path and
the data payload. -/
structure Request where
  subject : Value
  action : String
  object : String
  field : String
  data : Value

/-- The loop body of `Permissions.check` (src/permissions.ts),
threading the `allowed` accumulator: a matching rule has its
conditions evaluated; a satisfied allow sets the accumulator, a
satisfied deny returns false immediately. -/
def checkAux (req : Request) : List Permission → Bool → Except JsErr Bool
  | [], allowed => .ok allowed
  | p :: rest, allowed =>
    if matchesSubject p.subject req.subject && p.action == req.action
        && p.object == req.object && matchesField p.fields req.field then do
      let conditionsMet ← everyM (fun c => evaluateCondition c req.data) p.conditions
      if conditionsMet then
        if p.type == "allow" then checkAux req rest true
        else .ok false
      else checkAux req rest allowed
    else checkAux req rest allowed

/-- `Permissions.check` (src/permissions.ts): single pass over the
rule list, starting from the deny-by-default accumulator. -/
def check (rules : List Permission) (req : Request) : Except JsErr Bool :=
  checkAux req rules false

/-- Whether a condition holds: its evaluation completes and returns
true. -/
def conditionHolds (c : Condition) (data : Value) : Bool :=
  match evaluateCondition c data with
  | .ok true => true
  | _ => false

/-- Modelled from the spec: `RuleMatcher.applies` — a rule applies to a
request when subject, action, object and field all match and every
condition holds. -/
def applies (p : Permission) (req : Request) : Bool :=
  matchesSubject p.subject req.subject && p.action == req.action
    && p.object == req.object && matchesField p.fields req.field
    && p.conditions.all (fun c => conditionHolds c req.data)

/-- Modelled from the spec: the two-pass deny-overrides-allow
combination policy of §4.4 — false when some applicable deny rule
exists, otherwise true exactly when some applicable allow rule
exists. -/
def specDecision (rules : List Permission) (req : Request) : Bool :=
  if rules.any (fun p => p.type == "deny" && applies p req) then false
  else rules.any (fun p => p.type == "allow" && applies p req)

/-- The pure value of one `in`/`nin` element test when the condition
value is the object with entry list `m`: a non-null object (or array)
element matches when the condition value contains, at every own key of
the element, exactly that element's value; any other element compares
by strict equality (hence never equals the object). -/
def itemMatchesPure (m : List (String × Value)) (item : Value) : Bool :=
  if isObjectTypeof item && !(isNullV item) then
    (jsEntries item).all (fun kv => strictEqU (objGet m kv.1) (some kv.2))
  else strictEq item (.vObj m)

/-- Modelled from the spec: the element test §4.2 describes for
`in`/`nin` — a structured element matches when it contains every
key/value pair present in the expected value (extra keys on the
element are ignored). -/
def specElementMatches (expected : Value) (item : Value) : Bool :=
  (jsEntries expected).all (fun kv => strictEqU (propGet item kv.1) (some kv.2))

/-- `conditionToDTO`: the DTO entry `Permissions.toDTO` writes for one
condition. -/
def conditionToDTO (c : Condition) : Value :=
  .vObj [("field", .vStr c.field), ("operator", .vStr c.operator), ("value", c.value)]

/-- The DTO entry `Permissions.toDTO` (src/permissions.ts) writes for
one rule: effect, subject, action, object and fields are always
present; `conditions` is set to `undefined` — absent in the
serialized form — when the rule has no conditions. -/
def ruleToDTO (p : Permission) : Value :=
  .vObj ([("effect", .vStr p.type), ("subject", p.subject),
          ("action", .vStr p.action), ("object", .vStr p.object),
          ("fields", .vArr (p.fields.map Value.vStr))] ++
         (if p.conditions.isEmpty then []
          else [("conditions", .vArr (p.conditions.map conditionToDTO))]))

/-- `Permissions.toDTO` (src/permissions.ts): the versioned envelope
around the encoded rules. -/
def toDTO (rules : List Permission) : Value :=
  .vObj [("version", .vNum 1), ("rules", .vArr (rules.map ruleToDTO))]

/-- Reading a DTO field where the decoder's TypeScript cast expects a
string: the string itself, or the empty string on unvalidated junk
(the cast is a no-op at runtime; only validated or well-formed DTOs
reach the decoders in this development). -/
def asString : Option Value → String
  | some (.vStr s) => s
  | _ => ""

/-- The condition mapping inside `Permissions.fromDTO`: field,
operator and value are copied from the DTO entry. -/
def decodeCondition (v : Value) : Condition :=
  { field := asString (propGet v "field"),
    operator := asString (propGet v "operator"),
    value := (propGet v "value").getD .vNull }

/-- The rule mapping inside `Permissions.fromDTO`: effect becomes the
rule type, subject/action/object/fields are copied, and a missing
`conditions` entry becomes the empty list (`rule.conditions || []`). -/
def decodeRule (v : Value) : Permission :=
  { type := asString (propGet v "effect"),
    subject := (propGet v "subject").getD .vNull,
    action := asString (propGet v "action"),
    object := asString (propGet v "object"),
    fields := (match propGet v "fields" with
               | some (.vArr xs) => xs.map (fun x => asString (some x))
               | _ => []),
    conditions := (match propGet v "conditions" with
                   | some (.vArr cs) => cs.map decodeCondition
                   | _ => []) }

/-- The `parsedDTO.rules.map(...)` step of `Permissions.fromDTO`:
reading `.rules` off a non-object, or calling `.map` on a non-array,
raises a TypeError. -/
def decodeRules (dto : Value) : Except JsErr (List Permission) :=
  match dto with
  | .vNull => .error .typeError
  | _ =>
    match propGet dto "rules" with
    | some (.vArr rs) => .ok (rs.map decodeRule)
    | _ => .error .typeError

/-- The operator enumeration of the zod condition schema in
`validateDTO` (src/validation.ts) and of its no-zod fallback: eight
operators — `size` is absent from both lists. -/
def operatorEnum : List String := ["eq", "ne", "in", "nin", "gt", "gte", "lt", "lte"]

/-- Membership of a string in a string list (`z.enum` /
`Array.includes`). -/
def strMem (s : String) : List String → Bool
  | [] => false
  | x :: xs => x == s || strMem s xs

/-- The strict zod condition schema of `validateDTO`
(src/validation.ts): exactly the keys field/operator/value, a string
field, an operator drawn from `operatorEnum`, any value. -/
def condSchemaOk (v : Value) : Bool :=
  match v with
  | .vObj fs =>
    fs.all (fun kv => kv.1 == "field" || kv.1 == "operator" || kv.1 == "value")
      && (match objGet fs "field" with | some (.vStr _) => true | _ => false)
      && (match objGet fs "operator" with
          | some (.vStr op) => strMem op operatorEnum
          | _ => false)
  | _ => false

/-- The strict zod rule schema of `validateDTO` (src/validation.ts):
effect is `allow` or `deny`, action and object are strings, fields is
a string array, conditions — when present — is an array of valid
condition entries; no extra keys. -/
def ruleSchemaOk (v : Value) : Bool :=
  match v with
  | .vObj fs =>
    fs.all (fun kv => kv.1 == "effect" || kv.1 == "subject" || kv.1 == "action"
              || kv.1 == "object" || kv.1 == "fields" || kv.1 == "conditions")
      && (match objGet fs "effect" with
          | some (.vStr e) => e == "allow" || e == "deny"
          | _ => false)
      && (match objGet fs "action" with | some (.vStr _) => true | _ => false)
      && (match objGet fs "object" with | some (.vStr _) => true | _ => false)
      && (match objGet fs "fields" with
          | some (.vArr xs) => xs.all (fun x => match x with | .vStr _ => true | _ => false)
          | _ => false)
      && (match objGet fs "conditions" with
          | none => true
          | some (.vArr cs) => cs.all condSchemaOk
          | some _ => false)
  | _ => false

/-- The strict top-level zod schema of `validateDTO`
(src/validation.ts): exactly the keys version/rules, version literally
1, rules an array of valid rule entries. -/
def dtoSchemaOk (v : Value) : Bool :=
  match v with
  | .vObj fs =>
    fs.all (fun kv => kv.1 == "version" || kv.1 == "rules")
      && (match objGet fs "version" with | some (.vNum n) => n == 1 | _ => false)
      && (match objGet fs "rules" with
          | some (.vArr rs) => rs.all ruleSchemaOk
          | _ => false)
  | _ => false

/-- `validateDTO` (src/validation.ts): with `shouldValidate = false`
the DTO is returned unchecked; otherwise it is parsed against the zod
schema, a failure throwing a plain `Error`. -/
def validateDTO (dto : Value) (shouldValidate : Bool) : Except JsErr Value :=
  if !shouldValidate then .ok dto
  else if dtoSchemaOk dto then .ok dto
  else .error .genericError

/-- `Permissions.fromDTO(dto, validate)` (the revision importing
`validateDTO`): optionally validate, then map the DTO rules back into
permissions; any error escaping the body is rethrown as a
`PermissionValidationError`. -/
def fromDTO (dto : Value) (validate : Bool) : Except JsErr (List Permission) :=
  match (do
    let parsed ← validateDTO dto validate
    decodeRules parsed : Except JsErr (List Permission)) with
  | .ok ps => .ok ps
  | .error _ => .error .validationError

/-- The condition-operator enumeration of `permissionsDTOSchema` (the
types revision defining it): six operators — `ne`, `nin` and `size`
are all absent. -/
def operatorEnumSchema : List String := ["eq", "in", "gt", "gte", "lt", "lte"]

/-- The (non-strict) condition schema inside `permissionsDTOSchema`. -/
def condSchemaParseOk (v : Value) : Bool :=
  match v with
  | .vObj fs =>
    (match objGet fs "field" with | some (.vStr _) => true | _ => false)
      && (match objGet fs "operator" with
          | some (.vStr op) => strMem op operatorEnumSchema
          | _ => false)
  | _ => false

/-- The (non-strict) rule schema inside `permissionsDTOSchema`. -/
def ruleSchemaParseOk (v : Value) : Bool :=
  match v with
  | .vObj fs =>
    (match objGet fs "effect" with
     | some (.vStr e) => e == "allow" || e == "deny"
     | _ => false)
      && (match objGet fs "action" with | some (.vStr _) => true | _ => false)
      && (match objGet fs "object" with | some (.vStr _) => true | _ => false)
      && (match objGet fs "fields" with
          | some (.vArr xs) => xs.all (fun x => match x with | .vStr _ => true | _ => false)
          | _ => false)
      && (match objGet fs "conditions" with
          | none => true
          | some (.vArr cs) => cs.all condSchemaParseOk
          | some _ => false)
  | _ => false

/-- `permissionsDTOSchema` (the types revision defining it): version
literally 1 and an array of rules matching the rule schema. -/
def dtoSchemaParseOk (v : Value) : Bool :=
  match v with
  | .vObj fs =>
    (match objGet fs "version" with | some (.vNum n) => n == 1 | _ => false)
      && (match objGet fs "rules" with
          | some (.vArr rs) => rs.all ruleSchemaParseOk
          | _ => false)
  | _ => false

/-- `Permissions.fromDTO` as written in src/permissions.ts: always
parse the DTO against `permissionsDTOSchema`, then map the rules back
into permissions; any failure is rethrown as a
`PermissionValidationError`. -/
def fromDTOParse (dto : Value) : Except JsErr (List Permission) :=
  match (do
    let parsed ← (if dtoSchemaParseOk dto then .ok dto else .error .genericError :
        Except JsErr Value)
    decodeRules parsed : Except JsErr (List Permission)) with
  | .ok ps => .ok ps
  | .error _ => .error .validationError

/-- A well-typed rule set: every rule's effect is one of the two
declared values (the TypeScript `"allow" | "deny"` union). -/
def wellTypedRules (rules : List Permission) : Bool :=
  rules.all (fun p => p.type == "allow" || p.type == "deny")

/-- An allow rule on every field of `document:read`, conditional on
the data field `a.b`. -/
def allowOnNested : Permission :=
  { type := "allow",
    subject := .vObj [],
    action := "read",
    object := "document",
    fields := ["*"],
    conditions := [⟨"a.b", "eq", .vStr "x"⟩] }

/-- An unconditional deny rule on every field of `document:read`. -/
def denyAllFields : Permission :=
  { type := "deny",
    subject := .vObj [],
    action := "read",
    object := "document",
    fields := ["*"],
    conditions := [] }

/-- A request whose data payload holds `null` at `a`, an intermediate
position of `allowOnNested`'s condition path `a.b`. -/
def requestNullData : Request :=
  { subject := .vObj [("id", .vStr "1")],
    action := "read",
    object := "document",
    field := "f",
    data := .vObj [("a", .vNull)] }

/-- An allow rule on `document:read` field `content`, conditional on
`metadata.status` being `published`. -/
def editorRule : Permission :=
  { type := "allow",
    subject := .vObj [("role", .vStr "editor")],
    action := "read",
    object := "document",
    fields := ["content"],
    conditions := [⟨"metadata.status", "eq", .vStr "published"⟩] }

/-- A request whose data payload holds `null` at `metadata`, an
intermediate position of `editorRule`'s condition path. -/
def requestNullMetadata : Request :=
  { subject := .vObj [("role", .vStr "editor")],
    action := "read",
    object := "document",
    field := "content",
    data := .vObj [("metadata", .vNull)] }

/-- A request for `document:read` on `content` with published data,
matching `editorRule`. -/
def requestPublished : Request :=
  { subject := .vObj [("role", .vStr "editor")],
    action := "read",
    object := "document",
    field := "content",
    data := .vObj [("metadata", .vObj [("status", .vStr "published")])] }

/-- A DTO carrying one rule with one `size` condition — structurally
valid per the DTO documentation and the repository's own validation
tests, where `size` is among the valid operators. -/
def sizeConditionDTO : Value :=
  .vObj [("version", .vNum 1), ("rules", .vArr [.vObj
    [("effect", .vStr "allow"), ("subject", .vObj [("id", .vStr "1")]),
     ("action", .vStr "read"), ("object", .vStr "document"),
     ("fields", .vArr [.vStr "title"]),
     ("conditions", .vArr [.vObj [("field", .vStr "reviewers"),
       ("operator", .vStr "size"), ("value", .vNum 2)]])]])]

/-- The same DTO as `sizeConditionDTO` with the one condition operator
replaced by `lte`. -/
def lteConditionDTO : Value :=
  .vObj [("version", .vNum 1), ("rules", .vArr [.vObj
    [("effect", .vStr "allow"), ("subject", .vObj [("id", .vStr "1")]),
     ("action", .vStr "read"), ("object", .vStr "document"),
     ("fields", .vArr [.vStr "title"]),
     ("conditions", .vArr [.vObj [("field", .vStr "reviewers"),
       ("operator", .vStr "lte"), ("value", .vNum 2)]])]])]

/-- A one-rule set whose only condition uses the `ne` operator, which
the engine evaluates and `toDTO` encodes. -/
def neRuleSet : List Permission :=
  [{ type := "allow",
     subject := .vObj [("id", .vStr "1")],
     action := "read",
     object := "document",
     fields := ["content"],
     conditions := [⟨"metadata.status", "ne", .vStr "draft"⟩] }]

/-- A check request against a `members` array of structured elements,
used with the `in` operator. -/
def membersRequestData : Value :=
  .vObj [("members", .vArr [.vObj [("id", .vStr "1"), ("extra", .vStr "x")]])]

/-- Claim C2: the claim states that `Permissions.check` returns a
boolean and never throws, for every rule set and request, including
data payloads holding `null` at an intermediate position of a
condition's field path. The code contradicts it: on such a payload the
reduce callback of `getFieldValue` only guards `undefined`, so the
property read on `null` raises a TypeError that propagates out of
`check`. This theorem evaluates the code at the failing input. -/
theorem check_throws_on_null_intermediate :
    check [editorRule] requestNullMetadata = .error .typeError := rfl

/-- Claim C1 (counterexample): on a data payload holding `null` inside
a condition path, `check` over [conditional allow, unconditional deny]
throws, while the permuted rule set returns false — so the result is
not always the two-pass decision (an applicable deny exists here yet
the first order does not return false), and permuting the rules does
change the outcome. -/
theorem check_order_dependence_counterexample :
    check [allowOnNested, denyAllFields] requestNullData = .error .typeError ∧
    check [denyAllFields, allowOnNested] requestNullData = .ok false :=
  ⟨rfl, rfl⟩

/-- Claim C3 (counterexample): `evaluateCondition` does not guard
absent values, so an `ne` condition over a field path that resolves to
absent is satisfied: the claim that an absent value never satisfies
any of the nine operators fails at `ne`. -/
theorem ne_condition_satisfied_by_absent :
    evaluateCondition ⟨"a", "ne", .vStr "x"⟩ (.vObj []) = .ok true := rfl

/-- Claim C4: the claim (and the repository's own allowAll tests and
PRD) say the dedicated any-subject marker `"*"` matches every request
subject, while the template `{role := "*"}` matches exactly the
subjects whose role is literally `"*"`. The code contradicts the first
half: `matchesSubject` iterates `Object.entries` of the pattern, and
the entries of the string `"*"` are `[("0", "*")]`, so an ordinary
subject does not match. This theorem evaluates the code at the failing
input, and confirms the literal-template half. -/
theorem wildcard_subject_marker_mismatch :
    matchesSubject (.vStr "*") (.vObj [("id", .vStr "1"), ("role", .vStr "editor")]) = false ∧
    matchesSubject (.vObj [("role", .vStr "*")]) (.vObj [("role", .vStr "*"), ("id", .vStr "9")]) = true ∧
    matchesSubject (.vObj [("role", .vStr "*")]) (.vObj [("role", .vStr "editor")]) = false :=
  ⟨rfl, rfl, rfl⟩

/-- Claim C5 (counterexample): the claim's element test — the element
contains every key/value pair of the expected value, extra element
keys ignored — accepts the element `{id: "1", extra: "x"}` for the
expected value `{id: "1"}`, yet the engine's `in` over exactly that
array returns false: `evaluateCondition` iterates the entries of the
element (not of the expected value), so the extra key fails the
match. -/
theorem in_operator_direction_counterexample :
    specElementMatches (.vObj [("id", .vStr "1")])
      (.vObj [("id", .vStr "1"), ("extra", .vStr "x")]) = true ∧
    evaluateCondition ⟨"members", "in", .vObj [("id", .vStr "1")]⟩
      membersRequestData = .ok false :=
  ⟨rfl, rfl⟩

/-- Claim C6: the claim (with the DTO documentation, the `Operator`
type and the repository's validation test) counts `size` among the
nine valid condition operators, but `validateDTO`'s operator
enumeration stops at eight, so decoding a structurally valid DTO whose
only condition uses `size` raises a validation error, while the same
DTO with `lte` decodes. This theorem evaluates the code at the failing
input. -/
theorem fromDTO_rejects_size_operator :
    fromDTO sizeConditionDTO true = .error .validationError ∧
    fromDTO lteConditionDTO true =
      .ok [{ type := "allow",
             subject := .vObj [("id", .vStr "1")],
             action := "read",
             object := "document",
             fields := ["title"],
             conditions := [⟨"reviewers", "lte", .vNum 2⟩] }] :=
  ⟨rfl, rfl⟩

/-- Claim C7: the claim says decode ∘ encode reproduces an equivalent
rule set for every rule set, but `Permissions.fromDTO` in
src/permissions.ts parses against `permissionsDTOSchema`, whose
operator enumeration omits `ne`, `nin` and `size`; encoding a rule set
whose condition uses `ne` therefore produces a DTO its own decoder
rejects with a validation error. This theorem evaluates the code at
the failing input. -/
theorem roundTrip_rejects_ne_condition :
    fromDTOParse (toDTO neRuleSet) = .error .validationError := rfl

/-- Claim C9 (counterexample): a `*` segment against a mapping that
possesses a literal `"*"` key resolves to that entry — not to absent,
as claimed — and resolution stepping into `null` raises a TypeError
rather than yielding absent. -/
theorem getFieldValue_star_key_counterexample :
    getFieldValue (.vObj [("a", .vObj [("*", .vNum 5)])]) "a.*" = .ok (some (.vNum 5)) ∧
    getFieldValue (.vObj [("a", .vNull)]) "a.b" = .error .typeError :=
  ⟨rfl, rfl⟩

/-- Claim C10: a rule whose subject pattern is the empty attribute
template matches every request subject — `Object.entries` of the empty
template is empty, so the match is vacuously true — while an ordinary
literal-valued template such as `{role := "*"}` does not match
everything; the empty template is thus a further "matches everything"
spelling at the public interface. -/
theorem empty_subject_template_matches_every_subject :
    (∀ s : Value, matchesSubject (.vObj []) s = true) ∧
    matchesSubject (.vObj [("role", .vStr "*")]) (.vObj [("role", .vStr "admin")]) = false :=
  ⟨fun _ => rfl, rfl⟩

/-- `Array.every` over a possibly-raising predicate: when it completes,
its result is the conjunction of "the predicate completed with true"
over all elements (JavaScript's short-circuit cannot turn a false
answer into a raising one). -/
theorem everyM_ok_eq_all {α : Type} (f : α → Except JsErr Bool) :
    ∀ (l : List α) (b : Bool), everyM f l = .ok b →
      b = l.all (fun x => match f x with | .ok true => true | _ => false) := by
  intro l
  induction l with
  | nil =>
    intro b h
    simp only [everyM] at h
    cases h
    simp
  | cons x xs ih =>
    intro b h
    simp only [everyM] at h
    cases hfx : f x with
    | error e =>
      rw [hfx] at h
      simp [Bind.bind, Except.bind] at h
    | ok bv =>
      rw [hfx] at h
      cases bv with
      | true =>
        simp only [Bind.bind, Except.bind, if_true] at h
        have hb := ih b h
        simp [List.all_cons, hfx, hb]
      | false =>
        simp only [Bind.bind, Except.bind, if_false] at h
        cases h
        simp [List.all_cons, hfx]

/-- `Array.every` over a predicate that never raises computes the pure
conjunction. -/
theorem everyM_of_pure {α : Type} (f : α → Except JsErr Bool) (g : α → Bool)
    (hfg : ∀ x, f x = .ok (g x)) : ∀ l : List α, everyM f l = .ok (l.all g) := by
  intro l
  induction l with
  | nil => simp [everyM]
  | cons x xs ih =>
    simp only [everyM, hfg x, Bind.bind, Except.bind]
    cases hx : g x with
    | true => simp [ih, List.all_cons, hx]
    | false => simp [List.all_cons, hx]

/-- `Array.some` over a predicate that never raises computes the pure
disjunction. -/
theorem someM_of_pure {α : Type} (f : α → Except JsErr Bool) (g : α → Bool)
    (hfg : ∀ x, f x = .ok (g x)) : ∀ l : List α, someM f l = .ok (l.any g) := by
  intro l
  induction l with
  | nil => simp [someM]
  | cons x xs ih =>
    simp only [someM, hfg x, Bind.bind, Except.bind]
    cases hx : g x with
    | false => simp [ih, List.any_cons, hx]
    | true => simp [List.any_cons, hx]

/-- When the condition value is an object, the `in`/`nin` element test
never raises and computes `itemMatchesPure`. -/
theorem itemProbe_obj (m : List (String × Value)) (item : Value) :
    itemProbe (.vObj m) item = .ok (itemMatchesPure m item) := by
  unfold itemProbe itemMatchesPure
  by_cases hc : (isObjectTypeof item && !(isNullV item)) = true
  · rw [if_pos hc, if_pos hc]
    exact everyM_of_pure _ _ (fun kv => rfl) _
  · rw [if_neg hc, if_neg hc]

/-- An absent right operand makes the JavaScript `<` comparison
false. -/
theorem jsLtB_right_none (x : Option Value) : jsLtB x none = false := by
  cases x with
  | none => rfl
  | some v => cases v <;> rfl

/-- An absent left operand makes the JavaScript `<` comparison
false. -/
theorem jsLtB_left_none (y : Option Value) : jsLtB none y = false := by
  cases y with
  | none => rfl
  | some v => cases v <;> rfl

/-- An absent right operand makes the JavaScript `<=` comparison
false. -/
theorem jsLeB_right_none (x : Option Value) : jsLeB x none = false := by
  cases x with
  | none => rfl
  | some v => cases v <;> rfl

/-- An absent left operand makes the JavaScript `<=` comparison
false. -/
theorem jsLeB_left_none (y : Option Value) : jsLeB none y = false := by
  cases y with
  | none => rfl
  | some v => cases v <;> rfl

/-- The absent value is never strictly equal to a present one. -/
theorem strictEqU_none_some (v : Value) : strictEqU none (some v) = false := rfl

/-- Every pair in the zip of a list with itself is diagonal. -/
theorem mem_zip_self : ∀ (l : List String) (pr : String × String),
    pr ∈ l.zip l → pr.1 = pr.2 := by
  intro l
  induction l with
  | nil => intro pr h; simp at h
  | cons a t ih =>
    intro pr h
    rw [List.zip_cons_cons] at h
    rcases List.mem_cons.mp h with h1 | h2
    · subst h1; rfl
    · exact ih pr h2

/-- Permuting a rule list does not change `List.any` of any rule
predicate over it. -/
theorem perm_any (f : Permission → Bool) {l l' : List Permission} (h : l.Perm l') :
    l.any f = l'.any f := by
  apply Bool.eq_iff_iff.mpr
  simp only [List.any_eq_true]
  constructor
  · rintro ⟨x, hx, hfx⟩
    exact ⟨x, h.mem_iff.mp hx, hfx⟩
  · rintro ⟨x, hx, hfx⟩
    exact ⟨x, h.mem_iff.mpr hx, hfx⟩

/-- Well-typedness of a rule list transfers along permutations. -/
theorem perm_wellTyped {l l' : List Permission} (h : l.Perm l')
    (hwt : wellTypedRules l = true) : wellTypedRules l' = true := by
  simp only [wellTypedRules, List.all_eq_true] at hwt ⊢
  intro p hp
  exact hwt p (h.mem_iff.mpr hp)

/-- The completed runs of the single-pass loop of `Permissions.check`
compute the two-pass decision: threading the accumulator, a completed
`checkAux` returns false when some applicable deny rule exists among
the remaining rules, and otherwise the accumulator joined with the
existence of an applicable allow rule. -/
theorem checkAux_ok_characterization (req : Request) :
    ∀ (rules : List Permission) (acc b : Bool),
      wellTypedRules rules = true →
      checkAux req rules acc = .ok b →
      b = (if rules.any (fun p => p.type == "deny" && applies p req) then false
           else acc || rules.any (fun p => p.type == "allow" && applies p req)) := by
  intro rules
  induction rules with
  | nil =>
    intro acc b _ h
    simp only [checkAux] at h
    cases h
    simp
  | cons p rest ih =>
    intro acc b hwt h
    simp only [wellTypedRules, List.all_cons, Bool.and_eq_true] at hwt
    obtain ⟨hp, hrest⟩ := hwt
    simp only [checkAux] at h
    by_cases hg : (matchesSubject p.subject req.subject && p.action == req.action
        && p.object == req.object && matchesField p.fields req.field) = true
    · rw [if_pos hg] at h
      cases hev : everyM (fun c => evaluateCondition c req.data) p.conditions with
      | error e =>
        rw [hev] at h
        simp [Bind.bind, Except.bind] at h
      | ok cm =>
        rw [hev] at h
        simp only [Bind.bind, Except.bind] at h
        have hcm : cm = p.conditions.all (fun c => conditionHolds c req.data) :=
          everyM_ok_eq_all _ _ _ hev
        have happ : applies p req =
            ((matchesSubject p.subject req.subject && p.action == req.action
              && p.object == req.object && matchesField p.fields req.field)
             && p.conditions.all (fun c => conditionHolds c req.data)) := rfl
        cases hcmv : cm with
        | true =>
          rw [hcmv] at h
          simp only [if_true] at h
          have happT : applies p req = true := by
            rw [happ, hg, ← hcm, hcmv]
            rfl
          rcases (Bool.or_eq_true _ _).mp hp with hal | hde
          · rw [if_pos hal] at h
            have hb := ih true b hrest h
            have hnd : (p.type == "deny") = false := by
              have : p.type = "allow" := by simpa using hal
              simp [this]
            simp [List.any_cons, hnd, happT, hal, hb]
          · have hna : (p.type == "allow") = false := by
              have : p.type = "deny" := by simpa using hde
              simp [this]
            rw [hna] at h
            simp only [Bool.false_eq_true, if_false] at h
            cases h
            simp [List.any_cons, hde, happT]
        | false =>
          rw [hcmv] at h
          simp only [Bool.false_eq_true, if_false] at h
          have hb := ih acc b hrest h
          have happF : applies p req = false := by
            rw [happ, ← hcm, hcmv]
            simp
          simp [List.any_cons, happF, hb]
    · rw [if_neg hg] at h
      have hb := ih acc b hrest h
      have hgf : (matchesSubject p.subject req.subject && p.action == req.action
          && p.object == req.object && matchesField p.fields req.field) = false := by
        revert hg
        cases (matchesSubject p.subject req.subject && p.action == req.action
          && p.object == req.object && matchesField p.fields req.field) <;> simp
      have happF : applies p req = false := by
        have happ : applies p req =
            ((matchesSubject p.subject req.subject && p.action == req.action
              && p.object == req.object && matchesField p.fields req.field)
             && p.conditions.all (fun c => conditionHolds c req.data)) := rfl
        rw [happ, hgf]
        simp
      simp [List.any_cons, happF, hb]

/-- Claim C1 (amended): whenever the single-pass loop of
`Permissions.check` returns a result over a well-typed rule set, that
result is exactly the spec's two-pass deny-overrides-allow decision —
false when some applicable deny rule exists, else true exactly when
some applicable allow rule exists; consequently any two rule orderings
that both return results agree, and the empty rule set returns false
for every request. (On requests where a condition path steps into a
`null` value the loop instead throws, and whether it throws can depend
on rule order; see the counterexample and claim C2.) -/
theorem check_two_pass_equivalence (rules rules' : List Permission) (req : Request)
    (b b' : Bool)
    (hwt : wellTypedRules rules = true)
    (hperm : rules.Perm rules')
    (hr : check rules req = .ok b) (hr' : check rules' req = .ok b') :
    b = specDecision rules req ∧ b' = b ∧ check [] req = .ok false := by
  have h1 : b = specDecision rules req := by
    have := checkAux_ok_characterization req rules false b hwt hr
    simpa [specDecision] using this
  have h2 : b' = specDecision rules' req := by
    have := checkAux_ok_characterization req rules' false b'
      (perm_wellTyped hperm hwt) hr'
    simpa [specDecision] using this
  have h3 : specDecision rules' req = specDecision rules req := by
    unfold specDecision
    rw [perm_any (fun p => p.type == "deny" && applies p req) hperm,
        perm_any (fun p => p.type == "allow" && applies p req) hperm]
  exact ⟨h1, by rw [h2, h3, ← h1], rfl⟩

/-- Witness for claim C1: a concrete completed run — the editor rule
set grants the published-document request, and the theorem instantiated
there equates the result with the two-pass decision. -/
theorem check_two_pass_equivalence_witness :
    check [editorRule] requestPublished = .ok true ∧
    wellTypedRules [editorRule] = true ∧
    (true = specDecision [editorRule] requestPublished ∧ true = true ∧
      check [] requestPublished = .ok false) :=
  ⟨rfl, rfl,
   check_two_pass_equivalence [editorRule] [editorRule] requestPublished true true
     rfl (List.Perm.refl _) rfl rfl⟩

/-- Claim C3 (amended): when a condition's field path resolves to the
absent value, every operator except `ne` is unsatisfied — `eq`, the
four comparisons, `in`, `nin`, `size`, and unrecognized operators all
yield false — but `ne` is then always satisfied, because a rule's
expected value is a present value and the absent value strictly
differs from it. -/
theorem absent_condition_semantics (c : Condition) (data : Value)
    (habs : getFieldValue data c.field = .ok none) :
    (c.operator ≠ "ne" → evaluateCondition c data = .ok false) ∧
    (c.operator = "ne" → evaluateCondition c data = .ok true) := by
  unfold evaluateCondition
  rw [habs]
  simp only [Bind.bind, Except.bind]
  constructor
  · intro hne
    split_ifs with h1 h2 h3 h4 h5 h6 h7 h8 h9
    · simp [strictEqU_none_some, pure, Except.pure]
    · exact absurd (by simpa using h2) hne
    · simp [jsLtB_right_none, pure, Except.pure]
    · simp [jsLeB_right_none, pure, Except.pure]
    · simp [jsLtB_left_none, pure, Except.pure]
    · simp [jsLeB_left_none, pure, Except.pure]
    · rfl
    · rfl
    · rfl
    · rfl
  · intro hne
    rw [hne]
    rfl

/-- Witness for claim C3: the field `status` is absent from the empty
data object, and a `gt` condition over it evaluates to false. -/
theorem absent_condition_semantics_witness :
    getFieldValue (.vObj []) "status" = .ok none ∧
    evaluateCondition ⟨"status", "gt", .vNum 1⟩ (.vObj []) = .ok false :=
  ⟨rfl, (absent_condition_semantics ⟨"status", "gt", .vNum 1⟩ (.vObj []) rfl).1
    (by decide)⟩

/-- Claim C5 (amended): for `in` and `nin`, when the resolved value is
an array and the condition's expected value is a structured object, a
non-null structured element matches exactly when the expected value
contains, at every own key of the element, that element's value — the
element's pairs must be a subset of the expected value's, so extra
keys on the expected value are ignored and extra keys on the element
fail the match (an element without own keys matches vacuously);
non-structured elements compare by strict equality; `in` returns true
iff some element matches and `nin` returns true iff no element
matches. -/
theorem in_nin_subset_semantics (c : Condition) (data : Value) (xs : List Value)
    (m : List (String × Value))
    (hv : getFieldValue data c.field = .ok (some (.vArr xs)))
    (hcv : c.value = .vObj m) :
    (c.operator = "in" → evaluateCondition c data = .ok (xs.any (itemMatchesPure m))) ∧
    (c.operator = "nin" → evaluateCondition c data = .ok (!(xs.any (itemMatchesPure m)))) := by
  unfold evaluateCondition
  rw [hv]
  simp only [Bind.bind, Except.bind]
  constructor
  · intro hop
    rw [hop, hcv]
    show someM (itemProbe (.vObj m)) xs = _
    exact someM_of_pure _ _ (itemProbe_obj m) xs
  · intro hop
    rw [hop, hcv]
    show (do
      let b ← someM (itemProbe (.vObj m)) xs
      pure (!b) : Except JsErr Bool) = _
    rw [someM_of_pure _ _ (itemProbe_obj m) xs]
    rfl

/-- Witness for claim C5: a `members` array with one element whose
single pair occurs in the expected value; the theorem instantiated
there computes the engine's answer, which evaluates to true. -/
theorem in_nin_subset_semantics_witness :
    getFieldValue (.vObj [("members", .vArr [.vObj [("id", .vStr "2")]])]) "members"
        = .ok (some (.vArr [.vObj [("id", .vStr "2")]])) ∧
    evaluateCondition
        ⟨"members", "in", .vObj [("id", .vStr "2"), ("role", .vStr "member")]⟩
        (.vObj [("members", .vArr [.vObj [("id", .vStr "2")]])])
      = .ok ([Value.vObj [("id", .vStr "2")]].any
          (itemMatchesPure [("id", .vStr "2"), ("role", .vStr "member")])) ∧
    ([Value.vObj [("id", .vStr "2")]].any
        (itemMatchesPure [("id", .vStr "2"), ("role", .vStr "member")])) = true :=
  ⟨rfl,
   (in_nin_subset_semantics
       ⟨"members", "in", .vObj [("id", .vStr "2"), ("role", .vStr "member")]⟩
       (.vObj [("members", .vArr [.vObj [("id", .vStr "2")]])])
       [.vObj [("id", .vStr "2")]]
       [("id", .vStr "2"), ("role", .vStr "member")] rfl rfl).1 rfl,
   rfl⟩

/-- Claim C8: the per-pattern field matcher accepts a requested path
exactly when the pattern is the lone wildcard `"*"`, or the two have
the same number of dot-separated segments and every non-`*` segment of
the pattern equals the corresponding segment of the path; in
particular `"metadata"` does not match `"metadata.title"`, and
`"comments.*.text"` matches `"comments.0.text"`. -/
theorem matchesFieldOne_characterization :
    (∀ pattern requestField : String,
       matchesFieldOne pattern requestField = true ↔
         (pattern = "*" ∨
           ((splitDot pattern).length = (splitDot requestField).length ∧
            ∀ pr ∈ (splitDot pattern).zip (splitDot requestField),
              pr.1 = "*" ∨ pr.1 = pr.2))) ∧
    matchesFieldOne "metadata" "metadata.title" = false ∧
    matchesFieldOne "comments.*.text" "comments.0.text" = true := by
  refine ⟨?_, rfl, rfl⟩
  intro pattern requestField
  unfold matchesFieldOne
  dsimp only
  by_cases h1 : pattern = "*"
  · simp [h1]
  · rw [if_neg (by simpa using h1)]
    by_cases h2 : pattern = requestField
    · subst h2
      rw [if_pos (by simp)]
      constructor
      · intro _
        exact Or.inr ⟨rfl, fun pr hpr => Or.inr (mem_zip_self _ pr hpr)⟩
      · intro _
        rfl
    · rw [if_neg (by simpa using h2)]
      by_cases h3 : (splitDot pattern).length = (splitDot requestField).length
      · have hb : ((splitDot pattern).length != (splitDot requestField).length) = false := by
          simp [h3]
        rw [hb]
        simp only [Bool.false_eq_true, if_false, List.all_eq_true, Bool.or_eq_true,
          beq_iff_eq]
        constructor
        · intro hall
          exact Or.inr ⟨h3, hall⟩
        · intro hor
          rcases hor with hstar | ⟨_, hall⟩
          · exact absurd hstar h1
          · exact hall
      · have hb : ((splitDot pattern).length != (splitDot requestField).length) = true := by
          simpa [bne_iff_ne] using h3
        rw [hb]
        simp only [if_true, Bool.false_eq_true, false_iff]
        intro hor
        rcases hor with hstar | ⟨hlen, _⟩
        · exact h1 hstar
        · exact h3 hlen

/-- Witness for claim C8: the characterization instantiated at a
two-segment pattern matching itself. -/
theorem matchesFieldOne_characterization_witness :
    matchesFieldOne "a.b" "a.b" = true :=
  (matchesFieldOne_characterization.1 "a.b" "a.b").mpr
    (Or.inr ⟨rfl, fun pr hpr => Or.inr (mem_zip_self _ pr hpr)⟩)

/-- Claim C9 (amended): condition-value path resolution walks the
dot-separated segments with `getStep`; a `*` segment yields element 0
of an array (absent when empty); every other segment/value combination
is an ordinary own-property read — a mapping possessing a literal
`"*"` key yields that entry rather than absent, arrays additionally
expose their length and canonically-indexed elements, and strings
expose their length and canonically-indexed single-character strings;
resolution that hits an absent key, or reaches a number or boolean,
yields absent; but applying a segment to a `null` current value raises
a TypeError rather than yielding absent. -/
theorem getFieldValue_resolution_semantics :
    (∀ (data : Value) (path : String),
       getFieldValue data path = (splitDot path).foldlM getStep (some data)) ∧
    (∀ (xs : List Value) (part : String),
       getStep (some (.vArr xs)) part =
         if part == "*" then .ok xs.head? else .ok (arrGet xs part)) ∧
    (∀ (fs : List (String × Value)) (part : String),
       getStep (some (.vObj fs)) part = .ok (objGet fs part)) ∧
    (∀ part : String, getStep none part = .ok none) ∧
    (∀ part : String, getStep (some .vNull) part = .error .typeError) ∧
    (∀ (part : String) (n : Int), getStep (some (.vNum n)) part = .ok none) ∧
    (∀ (part : String) (b : Bool), getStep (some (.vBool b)) part = .ok none) ∧
    (∀ (part s : String), getStep (some (.vStr s)) part = .ok (strGet s part)) ∧
    (∀ xs : List Value, arrGet xs "length" = some (.vNum xs.length)) ∧
    (∀ s : String, strGet s "length" = some (.vNum s.length)) ∧
    getFieldValue (.vObj [("items", .vArr [.vNum 7, .vNum 9])]) "items.length"
      = .ok (some (.vNum 2)) ∧
    getFieldValue (.vObj [("name", .vStr "hi")]) "name.0" = .ok (some (.vStr "h")) ∧
    getFieldValue (.vObj [("name", .vStr "hi")]) "name.length" = .ok (some (.vNum 2)) := by
  refine ⟨fun _ _ => rfl, ?_, ?_, fun _ => rfl, ?_, ?_, ?_, ?_,
    fun _ => rfl, fun _ => rfl, rfl, rfl, rfl⟩
  · intro xs part
    by_cases hp : part = "*"
    · simp [getStep, isArray, firstElem, beq_iff_eq, hp]
    · simp [getStep, isArray, jsGet, firstElem, beq_iff_eq, hp]
  · intro fs part
    simp [getStep, isArray, jsGet, Bool.and_false]
  · intro part
    simp [getStep, isArray, jsGet, Bool.and_false]
  · intro part n
    simp [getStep, isArray, jsGet, Bool.and_false]
  · intro part b
    simp [getStep, isArray, jsGet, Bool.and_false]
  · intro part s
    simp [getStep, isArray, jsGet, Bool.and_false]

end Frtrss
